import Mathlib

/-!
# Subsurface: filtered dive list and reverse geo lookup

A shallow embedding of `qt-models/divelistmodel.cpp` and `divesitehelpers.cpp`.

Conventions of the embedding
* C++ member functions become functions on an explicit state record.
* A pointer into a global list is the position of the pointee in that list;
  a null pointer is `none`.
* An invalid memory access (null dereference, slot outside an array) is a
  `Fault`; the C++ program has undefined behaviour from there on.
* Calls that only report or signal (`report_error`, `qDebug`,
  `mark_divelist_changed`, `beginInsertRows`/`endInsertRows`) and the release
  of memory (`free`, `deleteLater`) are left out: nothing stated below reads
  what they write.
-/

namespace Subsurface

/-- Invalid memory accesses the embedded code can perform. -/
inductive Fault
  | nullDeref
  | outOfBounds
deriving DecidableEq, Repr

/-! ## Part 1. qt-models/divelistmodel.cpp -/

/-- A QString as its sequence of characters. -/
abbrev QString := List Char

/-- Does `pat` start the text `s`? -/
def startsWith : QString → QString → Bool
  | [], _ => true
  | _ :: _, [] => false
  | p :: ps, c :: cs => p == c && startsWith ps cs

/-- Search `pat` at every position of `s`, leftmost first (an empty `pat` is
found at position 0 of every text, the empty text included). -/
def findFrom (pat : QString) : QString → Bool
  | [] => startsWith pat []
  | c :: cs => startsWith pat (c :: cs) || findFrom pat cs

/-- The two values of `Qt::CaseSensitivity`. -/
inductive CaseSensitivity
  | CaseInsensitive
  | CaseSensitive
deriving DecidableEq, Repr

/-- The text actually compared: as is when case sensitive, case-folded
character by character otherwise. `foldCase` is the toolkit's folding. -/
def normalise (foldCase : Char → Char) (cs : CaseSensitivity) (s : QString) : QString :=
  match cs with
  | .CaseSensitive => s
  | .CaseInsensitive => s.map foldCase

/-- The library call `QString::contains(str, cs)`. -/
def QString_contains (foldCase : Char → Char) (s str : QString) (cs : CaseSensitivity) : Bool :=
  findFrom (normalise foldCase cs str) (normalise foldCase cs s)

/-- The fields of `struct dive` the list model reads. `divetrip` points into
`dive_trip_list` (position of the trip there; a position past the end of
the list is a trip that is not linked into it). The two texts are what
`DiveObjectHelper::fullText()` and `fullTextNoNotes()` derive from the dive;
the derivation lives outside these sources, so the texts travel with the
dive. -/
structure dive where
  id : Int
  when : Int
  divetrip : Option Nat
  fullText : QString
  fullTextNoNotes : QString
deriving DecidableEq, Repr

/-- The per-trip counters of `struct dive_trip`. -/
structure dive_trip where
  nrdives : Int
  showndives : Int
deriving DecidableEq, Repr

/-- The QObject wrapper `DiveObjectHelper(d)` around a dive. -/
structure DiveObjectHelper where
  m_dive : dive
deriving DecidableEq, Repr

def DiveObjectHelper.id (h : DiveObjectHelper) : Int := h.m_dive.id
def DiveObjectHelper.timestamp (h : DiveObjectHelper) : Int := h.m_dive.when
def DiveObjectHelper.fullText (h : DiveObjectHelper) : QString := h.m_dive.fullText
def DiveObjectHelper.fullTextNoNotes (h : DiveObjectHelper) : QString := h.m_dive.fullTextNoNotes
def DiveObjectHelper.getDive (h : DiveObjectHelper) : dive := h.m_dive

/-- The values `DiveListModel::data` can return; `invalid` is `QVariant()`. -/
inductive QVariant
  | invalid
  | object (d : DiveObjectHelper)
  | longlong (v : Int)
  | string (s : QString)
deriving DecidableEq, Repr

/-- Modelled from the spec: the role enum `DiveListRoles` is declared in the
header, which is not among the sources. The spec lists the roles of the read
contract: raw entity handle, timestamp, full text, full text without notes.
`other` is any other integer role. -/
inductive DiveListRoles
  | DiveRole
  | DiveDateRole
  | FullTextRole
  | FullTextNoNotesRole
  | other (role : Int)
deriving DecidableEq, Repr

/-- The state of `DiveListModel`: the list `m_dives`. -/
structure DiveListModel where
  m_dives : List DiveObjectHelper
deriving DecidableEq, Repr

/-- `DiveListModel::getDiveId`: guarded by `idx < 0 || idx >= m_dives.count()`. -/
def DiveListModel.getDiveId (m : DiveListModel) (idx : Int) : Except Fault Int :=
  if idx < 0 ∨ idx ≥ (m.m_dives.length : Int) then .ok (-1)
  else
    match m.m_dives[idx.toNat]? with
    | some d => .ok d.id
    | none => .error .outOfBounds

/-- `DiveListModel::data`: guarded by `index.row() < 0 || index.row() > m_dives.count()`;
`m_dives[index.row()]` is read before the switch on the role. -/
def DiveListModel.data (m : DiveListModel) (row : Int) (role : DiveListRoles) :
    Except Fault QVariant :=
  if row < 0 ∨ row > (m.m_dives.length : Int) then .ok .invalid
  else
    match m.m_dives[row.toNat]? with
    | none => .error .outOfBounds
    | some curr_dive =>
      match role with
      | .DiveRole => .ok (.object curr_dive)
      | .DiveDateRole => .ok (.longlong curr_dive.timestamp)
      | .FullTextRole => .ok (.string curr_dive.fullText)
      | .FullTextNoNotesRole => .ok (.string curr_dive.fullTextNoNotes)
      | .other _ => .ok .invalid

/-- `DiveListModel::addDive`: nothing for an empty list, otherwise one
`m_dives.append(new DiveObjectHelper(d))` per dive of the list, in order. -/
def DiveListModel.addDive (m : DiveListModel) (listOfDives : List dive) : DiveListModel :=
  if listOfDives.isEmpty then m
  else { m_dives := listOfDives.foldl (fun acc d => acc ++ [DiveObjectHelper.mk d]) m.m_dives }

/-- `DiveListModel::addAllDives`: collects every dive of the global dive
table (`for_each_dive`) and hands the list to `addDive`. -/
def DiveListModel.addAllDives (m : DiveListModel) (dive_table : List dive) : DiveListModel :=
  let listOfDives := dive_table.foldl (fun acc d => acc ++ [d]) []
  m.addDive listOfDives

/-- The two preferences `updateFilterState` reads from `qPrefGeneral`. -/
structure qPrefGeneral where
  filterFullTextNotes : Bool
  filterCaseSensitive : Bool
deriving DecidableEq, Repr

/-- The state of `DiveListSortModel`: its own members `filterString` and
`filteredRows`, the source model, and the row mapping kept by the
`QSortFilterProxyModel` base class (`proxyRows[i]` is the source row shown as
view row `i`). -/
structure DiveListSortModel where
  filterString : QString
  filteredRows : List Bool
  source : DiveListModel
  proxyRows : List Nat
deriving DecidableEq, Repr

/-- The proxy's `rowCount()`: the number of rows in the filtered view. -/
def DiveListSortModel.rowCount (s : DiveListSortModel) : Nat := s.proxyRows.length

/-- `DiveListSortModel::filterAcceptsRow`:
`filteredRows.size() > source_row ? filteredRows[source_row] : true`.
The comparison is between `size_t` and `int`, so `source_row` is converted
to the unsigned 64-bit type first. -/
def DiveListSortModel.filterAcceptsRow (s : DiveListSortModel) (source_row : Int) : Bool :=
  let u : Nat := (source_row % (2 : Int) ^ 64).toNat
  if s.filteredRows.length > u then s.filteredRows.getD u true else true

/-- `dt->showndives++` through a trip pointer. A pointer to a trip that is
not linked into `dive_trip_list` leaves the list as it is. -/
def bumpShown : List dive_trip → Nat → List dive_trip
  | [], _ => []
  | dt :: rest, 0 => { dt with showndives := dt.showndives + 1 } :: rest
  | dt :: rest, k + 1 => dt :: bumpShown rest k

/-- The second loop of `updateDivesShownInTrips`, over the view rows that
are left: `data(index(i, 0), DiveRole)` goes through the proxy to
`DiveListModel::data` at the mapped source row; the value is cast to
`DiveObjectHelper *` (null when the variant holds no object) and
dereferenced. -/
def countShown (m : DiveListModel) : List Nat → List dive_trip → Except Fault (List dive_trip)
  | [], trips => .ok trips
  | r :: rows, trips =>
    match m.data (r : Int) .DiveRole with
    | .error f => .error f
    | .ok (.object d) =>
      match d.getDive.divetrip with
      | some dt => countShown m rows (bumpShown trips dt)
      | none => countShown m rows trips
    | .ok _ => .error .nullDeref

/-- `DiveListSortModel::updateDivesShownInTrips` on the global `dive_trip_list`. -/
def DiveListSortModel.updateDivesShownInTrips (s : DiveListSortModel)
    (dive_trip_list : List dive_trip) : Except Fault (List dive_trip) :=
  let rc := s.rowCount
  let reset := dive_trip_list.map
    (fun dt => { dt with showndives := if rc ≠ 0 then 0 else dt.nrdives })
  countShown s.source s.proxyRows reset

/-- `DiveListSortModel::updateFilterState`. -/
def DiveListSortModel.updateFilterState (prefs : qPrefGeneral) (foldCase : Char → Char)
    (s : DiveListSortModel) (dive_trip_list : List dive_trip) :
    Except Fault (DiveListSortModel × List dive_trip) :=
  if s.filterString.isEmpty then
    .ok ({ s with filteredRows := [] }, dive_trip_list)
  else
    let includeNotes := prefs.filterFullTextNotes
    let cs := if prefs.filterCaseSensitive then CaseSensitivity.CaseSensitive
      else CaseSensitivity.CaseInsensitive
    let rows := s.source.m_dives.map (fun d =>
      let fullText := if includeNotes then d.fullText else d.fullTextNoNotes
      QString_contains foldCase fullText s.filterString cs)
    let s1 := { s with filteredRows := rows }
    match s1.updateDivesShownInTrips dive_trip_list with
    | .error f => .error f
    | .ok trips => .ok (s1, trips)

/-- The library call `invalidateFilter()`: the proxy asks `filterAcceptsRow`
for every source row again and keeps the accepted ones. -/
def DiveListSortModel.invalidateFilter (s : DiveListSortModel) : DiveListSortModel :=
  { s with proxyRows :=
      (List.range s.source.m_dives.length).filter (fun r => s.filterAcceptsRow (r : Int)) }

/-- `DiveListSortModel::setFilter`. -/
def DiveListSortModel.setFilter (prefs : qPrefGeneral) (foldCase : Char → Char)
    (s : DiveListSortModel) (dive_trip_list : List dive_trip) (f : QString) :
    Except Fault (DiveListSortModel × List dive_trip) :=
  let s0 := { s with filterString := f }
  match DiveListSortModel.updateFilterState prefs foldCase s0 dive_trip_list with
  | .error e => .error e
  | .ok (s1, trips1) =>
    let s2 := s1.invalidateFilter
    match s2.updateDivesShownInTrips trips1 with
    | .error e => .error e
    | .ok trips2 => .ok (s2, trips2)

/-! ## Part 2. divesitehelpers.cpp -/

/-- What `divesitehelpers.cpp` takes from headers that are not among the
sources: the enumerators `OCEAN`, `COUNTRY`, `NR_CATEGORIES` of the category
enum and `GEOCODED` of the origin enum, the table `taxonomy_api_names`, and the
helper `copy_string`. The code comment "OCEAN is special, so start at COUNTRY"
and the bounds of the loop `for (j = COUNTRY; j < NR_CATEGORIES; j++)` give the
order of the three category enumerators. -/
structure CoreDecls where
  OCEAN : Nat
  COUNTRY : Nat
  NR_CATEGORIES : Nat
  GEOCODED : Nat
  taxonomy_api_names : Nat → String
  copy_string : String → Option String
  ocean_lt_country : OCEAN < COUNTRY
  country_le_nr : COUNTRY ≤ NR_CATEGORIES

/-- One entry `struct taxonomy`: category kind, value (a C string, possibly
null) and origin tag. -/
structure taxonomy where
  category : Nat
  value : Option String
  origin : Nat
deriving DecidableEq, Repr

/-- The member `taxonomy` of a dive site: the count `nr` and the array
`category` (null until allocated). The code only ever sets `nr` to a slot
index counted up from 0 or increments it, so it is a natural number here. -/
structure taxonomy_data where
  nr : Nat
  category : Option (List taxonomy)
deriving DecidableEq, Repr

/-- The fields of `struct dive_site` the worker touches. -/
structure dive_site where
  uuid : Nat
  latitude : Int
  longitude : Int
  taxonomy : taxonomy_data
deriving DecidableEq, Repr

/-- `struct GeoLookupInfo`. -/
structure GeoLookupInfo where
  lat : Int
  lon : Int
  uuid : Nat
deriving DecidableEq, Repr

/-- A `rgl->get(request)` call: which of the two URLs, for which queue entry. -/
inductive Request
  | geonames (info : GeoLookupInfo)
  | geonamesOcean (info : GeoLookupInfo)
deriving DecidableEq, Repr

/-- A `QVariantMap` read with `map[key]`: `none` when the variant under the
key is not valid, otherwise its `toString()`. -/
abbrev QVariantMap := String → Option String

/-- What the worker observes of one request after `loop.exec()` returns:
whether the 5 s timer is still active (the reply came first), the reply's
error code, the HTTP status attribute, whether parsing the body failed, and
of the parsed JSON object the list under "geonames" and the map under
"ocean". -/
structure NetworkReply where
  timerActive : Bool
  error : Nat
  httpStatus : Int
  parseError : Bool
  geonames : List QVariantMap
  ocean : QVariantMap

/-- Modelled from the spec: `alloc_taxonomy` is defined outside these sources;
the spec has it allocate the backing storage for the categories on first use.
Here: a zeroed block with one slot per enumerator below `NR_CATEGORIES`. -/
def alloc_taxonomy (T : CoreDecls) : List taxonomy :=
  List.replicate T.NR_CATEGORIES { category := 0, value := none, origin := 0 }

/-- Modelled from the spec: `get_dive_site_by_uuid` is defined outside these
sources; the spec has it resolve an entity by identifier and return the
entity or not-found. Here: the position of the first site with that uuid. -/
def get_dive_site_by_uuid : List dive_site → Nat → Option Nat
  | [], _ => none
  | ds :: rest, uuid =>
    if ds.uuid = uuid then some 0 else (get_dive_site_by_uuid rest uuid).map (· + 1)

/-- The process state the worker runs in: the dive site table, the queue
`geo_lookup_data`, the log of requests sent so far (oldest first) and, once an
invalid memory access has happened, the fault. -/
structure World where
  dive_sites : List dive_site
  geo_lookup_data : List GeoLookupInfo
  requests : List Request
  fault : Option Fault
deriving DecidableEq, Repr

/-- A write to `category[i]`. -/
def writeSlot (category : List taxonomy) (i : Nat) (e : taxonomy) : Except Fault (List taxonomy) :=
  if i < category.length then .ok (category.set i e) else .error .outOfBounds

/-- The loop `for (int j = COUNTRY; j < NR_CATEGORIES; j++)` over the kinds
`js` that are left, with the running slot index `ri`. -/
def fillFromGeonames (T : CoreDecls) (firstData : QVariantMap) :
    List Nat → List taxonomy → Nat → Except Fault (List taxonomy × Nat)
  | [], category, ri => .ok (category, ri)
  | j :: js, category, ri =>
    match firstData (T.taxonomy_api_names j) with
    | some v =>
      match writeSlot category ri
          { category := j, value := T.copy_string v, origin := T.GEOCODED } with
      | .error f => .error f
      | .ok category' => fillFromGeonames T firstData js category' (ri + 1)
    | none => fillFromGeonames T firstData js category ri

/-- The writes of the place-names branch (`geoNames.count() > 0`) through a
non-null `ds`: allocate if `category == NULL`, run the loop from slot 0, then
`ds->taxonomy.nr = ri`. -/
def writeGeonames (T : CoreDecls) (firstData : QVariantMap) (ds : dive_site) :
    Except Fault dive_site :=
  let category := match ds.taxonomy.category with
    | none => alloc_taxonomy T
    | some c => c
  match fillFromGeonames T firstData
      (List.range' T.COUNTRY (T.NR_CATEGORIES - T.COUNTRY)) category 0 with
  | .error f => .error f
  | .ok (category', ri) => .ok { ds with taxonomy := { nr := ri, category := some category' } }

/-- The writes of the ocean branch (`oceanName["name"].isValid()`) through a
non-null `ds`: allocate if `category == NULL`, write slot `nr`, then `nr++`. -/
def writeOcean (T : CoreDecls) (name : String) (ds : dive_site) : Except Fault dive_site :=
  let category := match ds.taxonomy.category with
    | none => alloc_taxonomy T
    | some c => c
  match writeSlot category ds.taxonomy.nr
      { category := T.OCEAN, value := T.copy_string name, origin := T.GEOCODED } with
  | .error f => .error f
  | .ok category' =>
    .ok { ds with taxonomy := { nr := ds.taxonomy.nr + 1, category := some category' } }

/-- Run writes through the pointer `ds` (a position in the site table, or
null). Nothing is checked before the dereference. -/
def throughPointer (w : World) (ds : Option Nat) (f : dive_site → Except Fault dive_site) :
    World :=
  match ds with
  | none => { w with fault := some .nullDeref }
  | some k =>
    match w.dive_sites[k]? with
    | none => { w with fault := some .nullDeref }
    | some site =>
      match f site with
      | .error e => { w with fault := some e }
      | .ok site' => { w with dive_sites := w.dive_sites.set k site' }

/-- Where control goes after the place-names block: on to the ocean request,
or to the label `clear_reply` at the end of the loop body. -/
inductive Flow
  | next
  | clear_reply
deriving DecidableEq, Repr

/-- The first half of the loop body: the place-names request and the
handling of its reply. -/
def geonamesStep (T : CoreDecls) (w : World) (ds : Option Nat) (info : GeoLookupInfo)
    (reply : NetworkReply) : World × Flow :=
  let w := { w with requests := w.requests ++ [Request.geonames info] }
  if reply.timerActive then
    if reply.error > 0 then (w, .clear_reply)
    else if reply.httpStatus < 200 ∨ reply.httpStatus ≥ 300 then (w, .clear_reply)
    else if reply.parseError then (w, .clear_reply)
    else
      match reply.geonames with
      | firstData :: _ => (throughPointer w ds (writeGeonames T firstData), .next)
      | [] => (w, .next)
  else (w, .next)

/-- The second half of the loop body: the ocean request and the handling of
its reply. -/
def oceanStep (T : CoreDecls) (w : World) (ds : Option Nat) (info : GeoLookupInfo)
    (reply : NetworkReply) : World :=
  let w := { w with requests := w.requests ++ [Request.geonamesOcean info] }
  if reply.timerActive then
    if reply.error > 0 then w
    else if reply.httpStatus < 200 ∨ reply.httpStatus ≥ 300 then w
    else if reply.parseError then w
    else
      match reply.ocean "name" with
      | some name => throughPointer w ds (writeOcean T name)
      | none => w
  else w

/-- One iteration of the `Q_FOREACH` loop of `ReverseGeoLookupThread::run`,
for the queue entry `info` and the replies to its two requests. -/
def ReverseGeoLookupThread.run_entry (T : CoreDecls) (w : World) (info : GeoLookupInfo)
    (placeReply oceanReply : NetworkReply) : World :=
  let ds := get_dive_site_by_uuid w.dive_sites info.uuid
  match geonamesStep T w ds info placeReply with
  | (w1, flow) =>
    if w1.fault.isSome then w1
    else
      match flow with
      | .clear_reply => w1
      | .next => oceanStep T w1 ds info oceanReply

/-- The `Q_FOREACH` loop over the entries that are left; `net i` holds the
replies to the two requests of the `i`-th entry. The loop ends with the
process when a fault happens. -/
def runLoop (T : CoreDecls) (net : Nat → NetworkReply × NetworkReply) :
    Nat → List GeoLookupInfo → World → World
  | _, [], w => w
  | i, info :: rest, w =>
    let w1 := ReverseGeoLookupThread.run_entry T w info (net i).1 (net i).2
    if w1.fault.isSome then w1 else runLoop T net (i + 1) rest w1

/-- `ReverseGeoLookupThread::run`. -/
def ReverseGeoLookupThread.run (T : CoreDecls) (w : World)
    (net : Nat → NetworkReply × NetworkReply) : World :=
  if w.fault.isSome then w
  else if w.geo_lookup_data.isEmpty then w
  else runLoop T net 0 w.geo_lookup_data w

/-- `ReverseGeoLookupThread::lookup`, called with the pointer `ds`. -/
def ReverseGeoLookupThread.lookup (T : CoreDecls) (w : World) (ds : Option Nat)
    (net : Nat → NetworkReply × NetworkReply) : World :=
  match ds with
  | none => w
  | some k =>
    match w.dive_sites[k]? with
    | none => { w with fault := some .nullDeref }
    | some site =>
      let info : GeoLookupInfo := { lat := site.latitude, lon := site.longitude, uuid := site.uuid }
      ReverseGeoLookupThread.run T { w with geo_lookup_data := [] ++ [info] } net

/-- `add_geo_information_for_lookup`. -/
def add_geo_information_for_lookup (w : World) (latitude longitude : Int) (uuid : Nat) : World :=
  let info : GeoLookupInfo := { lat := latitude, lon := longitude, uuid := uuid }
  { w with geo_lookup_data := w.geo_lookup_data ++ [info] }

/-- The entries a taxonomy holds: the first `nr` slots of its array. -/
def taxonomy_data.entries (t : taxonomy_data) : List taxonomy :=
  (t.category.getD []).take t.nr

/-- The queue entries the place-names requests of a log were sent for. -/
def geonamesEntries : List Request → List GeoLookupInfo
  | [] => []
  | .geonames info :: rest => info :: geonamesEntries rest
  | .geonamesOcean _ :: rest => geonamesEntries rest

/-- A reply that arrived in time, without transport error, with a 2xx
status and a body that parsed. -/
def NetworkReply.succeeded (r : NetworkReply) : Prop :=
  r.timerActive = true ∧ r.error = 0 ∧ 200 ≤ r.httpStatus ∧ r.httpStatus < 300 ∧
    r.parseError = false

/-! ### Sample data -/

/-- A sample instance of the header declarations. -/
def sampleDecls : CoreDecls where
  OCEAN := 1
  COUNTRY := 2
  NR_CATEGORIES := 6
  GEOCODED := 0
  taxonomy_api_names := fun j =>
    match j with
    | 2 => "countryName"
    | 3 => "adminName1"
    | 4 => "adminName2"
    | 5 => "toponymName"
    | _ => "none"
  copy_string := fun s => if s = "" then none else some s
  ocean_lt_country := by decide
  country_le_nr := by decide

/-- A reply that never came: the timer fired first. -/
def timedOut : NetworkReply :=
  { timerActive := false, error := 0, httpStatus := 0, parseError := false,
    geonames := [], ocean := fun _ => none }

/-- A reply with a transport error. -/
def transportError : NetworkReply :=
  { timerActive := true, error := 1, httpStatus := 0, parseError := false,
    geonames := [], ocean := fun _ => none }

/-- The place-names reply of the spec's scenario: one result naming Italy. -/
def italyReply : NetworkReply :=
  { timerActive := true, error := 0, httpStatus := 200, parseError := false,
    geonames := [fun key => if key = "countryName" then some "Italy" else none],
    ocean := fun _ => none }

/-- An ocean reply naming the given ocean. -/
def oceanReply (name : String) : NetworkReply :=
  { timerActive := true, error := 0, httpStatus := 200, parseError := false,
    geonames := [],
    ocean := fun key => if key = "name" then some name else none }

/-- A site that has never been looked up. -/
def freshSite : dive_site :=
  { uuid := 7, latitude := 12345678, longitude := 45678912,
    taxonomy := { nr := 0, category := none } }

/-- The queue entry of `freshSite`. -/
def freshInfo : GeoLookupInfo := { lat := 12345678, lon := 45678912, uuid := 7 }

/-! ## Part 3. Vocabulary of the statements -/

/-- The text `updateFilterState` matches a row on: `fullText()` when notes are
included, `fullTextNoNotes()` otherwise. -/
def matchText (prefs : qPrefGeneral) (d : DiveObjectHelper) : QString :=
  if prefs.filterFullTextNotes then d.fullText else d.fullTextNoNotes

/-- The case sensitivity `updateFilterState` passes to `contains`. -/
def configuredCase (prefs : qPrefGeneral) : CaseSensitivity :=
  if prefs.filterCaseSensitive then .CaseSensitive else .CaseInsensitive

/-- The trip the dive in source row `r` points to, if the row exists and the
dive is in a trip. -/
def tripOf (m : DiveListModel) (r : Nat) : Option Nat :=
  (m.m_dives[r]?).bind (fun d => d.getDive.divetrip)

/-- How many of the view rows `rows` (given by their source rows) hold a dive
that belongs to trip `k`. -/
def shownInTrip (m : DiveListModel) (rows : List Nat) (k : Nat) : Nat :=
  rows.countP (fun r => tripOf m r = some k)

/-- The entry the place-names loop writes for kind `j`: present exactly when
the first result has the field of that kind. -/
def geocodedEntry (T : CoreDecls) (firstData : QVariantMap) (j : Nat) : Option taxonomy :=
  (firstData (T.taxonomy_api_names j)).map
    (fun v => { category := j, value := T.copy_string v, origin := T.GEOCODED })

/-- One GEOCODED entry per kind, from COUNTRY up to the last kind, whose field
is present in the first result, in ascending kind order. -/
def geocodedEntries (T : CoreDecls) (firstData : QVariantMap) : List taxonomy :=
  (List.range' T.COUNTRY (T.NR_CATEGORIES - T.COUNTRY)).filterMap (geocodedEntry T firstData)

/-- One GEOCODED OCEAN entry if the ocean response names an ocean, nothing
otherwise. -/
def oceanEntry (T : CoreDecls) (name : Option String) : List taxonomy :=
  match name with
  | some n => [{ category := T.OCEAN, value := T.copy_string n, origin := T.GEOCODED }]
  | none => []

/-- The array a write through `ds` lands in: the existing one, or a fresh
allocation when `category == NULL`. -/
def storageOf (T : CoreDecls) (site : dive_site) : List taxonomy :=
  match site.taxonomy.category with
  | none => alloc_taxonomy T
  | some c => c

/-- A sequence of `add_geo_information_for_lookup` calls, one per entry of
`adds`, in order. -/
def enqueueAll (w : World) (adds : List GeoLookupInfo) : World :=
  adds.foldl (fun w a => add_geo_information_for_lookup w a.lat a.lon a.uuid) w

/-! ### More sample data -/

/-- A dive in trip 0 whose notes mention the sea. -/
def sampleDive : dive :=
  { id := 1, when := 0, divetrip := some 0,
    fullText := ['R', 'e', 'd', ' ', 'S', 'e', 'a'], fullTextNoNotes := ['R', 'e', 'd'] }

/-- A dive outside any trip. -/
def otherDive : dive :=
  { id := 2, when := 0, divetrip := none,
    fullText := ['B', 'a', 'l', 'i'], fullTextNoNotes := ['B', 'a', 'l', 'i'] }

/-- A sort model over the two sample dives, no filter set, both rows shown. -/
def sampleSortModel : DiveListSortModel :=
  { filterString := [], filteredRows := [],
    source := { m_dives := [⟨sampleDive⟩, ⟨otherDive⟩] }, proxyRows := [0, 1] }

/-- Notes included, case-insensitive matching. -/
def samplePrefs : qPrefGeneral := { filterFullTextNotes := true, filterCaseSensitive := false }

/-- A trip list with one trip of one dive. -/
def sampleTrips : List dive_trip := [{ nrdives := 1, showndives := 0 }]

/-- A site whose taxonomy holds one user-entered country (origin 2, not
GEOCODED) in allocated storage. -/
def userSite : dive_site :=
  { uuid := 7, latitude := 12345678, longitude := 45678912,
    taxonomy := { nr := 1, category := some [
        { category := 2, value := some "Atlantis", origin := 2 },
        { category := 0, value := none, origin := 0 },
        { category := 0, value := none, origin := 0 },
        { category := 0, value := none, origin := 0 },
        { category := 0, value := none, origin := 0 },
        { category := 0, value := none, origin := 0 }] } }

/-- A site whose taxonomy holds one geocoded ocean and nothing else. -/
def oceanSite : dive_site :=
  { uuid := 7, latitude := 12345678, longitude := 45678912,
    taxonomy := { nr := 1, category := some [
        { category := 1, value := some "Pacific Ocean", origin := 0 },
        { category := 0, value := none, origin := 0 },
        { category := 0, value := none, origin := 0 },
        { category := 0, value := none, origin := 0 },
        { category := 0, value := none, origin := 0 },
        { category := 0, value := none, origin := 0 }] } }

/-- A world with one site and its lookup queued. -/
def worldOf (site : dive_site) : World :=
  { dive_sites := [site], geo_lookup_data := [freshInfo], requests := [], fault := none }

/-- A queue entry whose uuid no site carries. -/
def vanishedInfo : GeoLookupInfo := { lat := 1000000, lon := 2000000, uuid := 99 }

/-! ## Part 4. Lemmas on the filtered dive list -/

/-- The text starts with the pattern exactly when it is the pattern followed by
something. -/
theorem startsWith_iff (p s : QString) :
    startsWith p s = true ↔ ∃ post, s = p ++ post := by
  induction p generalizing s with
  | nil => simp [startsWith]
  | cons a p ih =>
    cases s with
    | nil => simp [startsWith]
    | cons c cs =>
      simp only [startsWith, Bool.and_eq_true, beq_iff_eq, ih, List.cons_append, List.cons.injEq]
      constructor
      · rintro ⟨rfl, post, rfl⟩
        exact ⟨post, rfl, rfl⟩
      · rintro ⟨post, rfl, rfl⟩
        exact ⟨rfl, post, rfl⟩

/-- The search succeeds exactly when the pattern occurs somewhere in the text. -/
theorem findFrom_iff (p s : QString) :
    findFrom p s = true ↔ ∃ pre post, s = pre ++ p ++ post := by
  induction s with
  | nil =>
    simp only [findFrom, startsWith_iff]
    constructor
    · rintro ⟨post, h⟩
      exact ⟨[], post, by simpa using h⟩
    · rintro ⟨pre, post, h⟩
      have h1 : pre = [] ∧ p = [] ∧ post = [] := by
        have h2 := h.symm
        simp only [List.append_eq_nil] at h2
        exact ⟨h2.1.1, h2.1.2, h2.2⟩
      obtain ⟨rfl, rfl, rfl⟩ := h1
      exact ⟨[], rfl⟩
  | cons c cs ih =>
    simp only [findFrom, Bool.or_eq_true, startsWith_iff, ih]
    constructor
    · rintro (⟨post, h⟩ | ⟨pre, post, h⟩)
      · exact ⟨[], post, by simpa using h⟩
      · exact ⟨c :: pre, post, by simp [h]⟩
    · rintro ⟨pre, post, h⟩
      cases pre with
      | nil => exact Or.inl ⟨post, by simpa using h⟩
      | cons a pre =>
        simp only [List.cons_append, List.cons.injEq] at h
        exact Or.inr ⟨pre, post, by simpa using h.2⟩

theorem bumpShown_length (trips : List dive_trip) (j : Nat) :
    (bumpShown trips j).length = trips.length := by
  induction trips generalizing j with
  | nil => simp [bumpShown]
  | cons dt rest ih =>
    cases j with
    | zero => simp [bumpShown]
    | succ j => simp [bumpShown, ih]

theorem bumpShown_get (trips : List dive_trip) (j k : Nat) :
    (bumpShown trips j)[k]? = (trips[k]?).map
      (fun (dt : dive_trip) => { dt with showndives := dt.showndives + (if j = k then 1 else 0) }) := by
  induction trips generalizing j k with
  | nil => simp [bumpShown]
  | cons dt rest ih =>
    cases j with
    | zero =>
      cases k with
      | zero => simp [bumpShown]
      | succ k => simp [bumpShown]
    | succ j =>
      cases k with
      | zero => simp [bumpShown]
      | succ k => simp [bumpShown, ih]

theorem data_DiveRole_valid (m : DiveListModel) (r : Nat) (d : DiveObjectHelper)
    (h : m.m_dives[r]? = some d) :
    m.data (r : Int) .DiveRole = .ok (.object d) := by
  have hlt : r < m.m_dives.length := by
    rcases Nat.lt_or_ge r m.m_dives.length with h1 | h1
    · exact h1
    · rw [List.getElem?_eq_none h1] at h
      cases h
  have hg : ¬ ((r : Int) < 0 ∨ (r : Int) > (m.m_dives.length : Int)) := by omega
  simp only [DiveListModel.data, hg, if_false, Int.toNat_ofNat, h]

/-- Over valid source rows the counting loop ends without a fault and adds to
each trip the number of rows whose dive belongs to it. -/
theorem countShown_ok (m : DiveListModel) (rows : List Nat) (trips : List dive_trip)
    (hvalid : ∀ r ∈ rows, r < m.m_dives.length) :
    ∃ trips', countShown m rows trips = .ok trips' ∧ trips'.length = trips.length ∧
      ∀ k : Nat, trips'[k]? = (trips[k]?).map
        (fun (dt : dive_trip) => { dt with showndives := dt.showndives + (shownInTrip m rows k : Int) }) := by
  induction rows generalizing trips with
  | nil =>
    refine ⟨trips, rfl, rfl, fun k => ?_⟩
    cases h : trips[k]? <;> simp [shownInTrip]
  | cons r rows ih =>
    have hr : r < m.m_dives.length := hvalid r (List.mem_cons_self _ _)
    have hrest : ∀ x ∈ rows, x < m.m_dives.length :=
      fun x hx => hvalid x (List.mem_cons_of_mem _ hx)
    have hget : m.m_dives[r]? = some (m.m_dives[r]) := List.getElem?_eq_getElem hr
    have hdata := data_DiveRole_valid m r _ hget
    cases hdt : (m.m_dives[r]).getDive.divetrip with
    | none =>
      obtain ⟨t, h1, h2, h3⟩ := ih trips hrest
      refine ⟨t, ?_, h2, fun k => ?_⟩
      · simp [countShown, hdata, hdt, h1]
      · rw [h3 k]
        have : tripOf m r ≠ some k := by simp [tripOf, hget, hdt]
        simp [shownInTrip, List.countP_cons, this]
    | some j =>
      obtain ⟨t, h1, h2, h3⟩ := ih (bumpShown trips j) hrest
      refine ⟨t, ?_, by rw [h2, bumpShown_length], fun k => ?_⟩
      · simp [countShown, hdata, hdt, h1]
      · rw [h3 k, bumpShown_get]
        have ht : tripOf m r = some j := by simp [tripOf, hget, hdt]
        cases hk : trips[k]? with
        | none => simp
        | some dt =>
          by_cases hjk : j = k
          · subst hjk
            simp [shownInTrip, List.countP_cons, ht]
            omega
          · simp [shownInTrip, List.countP_cons, ht, hjk]

/-- With a valid row mapping the recount ends without a fault; every trip
starts from 0 (rows shown) or from its size (no rows shown) and gains one per
row that belongs to it. -/
theorem updateDivesShownInTrips_ok (s : DiveListSortModel) (trips : List dive_trip)
    (hvalid : ∀ r ∈ s.proxyRows, r < s.source.m_dives.length) :
    ∃ trips', s.updateDivesShownInTrips trips = .ok trips' ∧ trips'.length = trips.length ∧
      ∀ k : Nat, trips'[k]? = (trips[k]?).map (fun (dt : dive_trip) =>
        { dt with showndives := (if s.rowCount ≠ 0 then 0 else dt.nrdives)
            + (shownInTrip s.source s.proxyRows k : Int) }) := by
  obtain ⟨t, h1, h2, h3⟩ := countShown_ok s.source s.proxyRows
    (trips.map (fun dt => { dt with showndives := if s.rowCount ≠ 0 then 0 else dt.nrdives })) hvalid
  refine ⟨t, ?_, by simpa using h2, fun k => ?_⟩
  · simpa [DiveListSortModel.updateDivesShownInTrips] using h1
  · rw [h3 k, List.getElem?_map]
    cases trips[k]? <;> rfl

theorem filterAcceptsRow_in_range (s : DiveListSortModel) (i : Nat)
    (hi : i < s.filteredRows.length) (hsmall : i < 2 ^ 31) :
    s.filterAcceptsRow (i : Int) = s.filteredRows.getD i true := by
  have hu : ((i : Int) % (2 : Int) ^ 64).toNat = i := by
    have h1 : (i : Int) % (2 : Int) ^ 64 = (i : Int) := by
      apply Int.emod_eq_of_lt <;> omega
    rw [h1]; rfl
  simp only [DiveListSortModel.filterAcceptsRow, hu]
  simp [hi]

theorem filterAcceptsRow_empty (s : DiveListSortModel) (r : Int)
    (h : s.filteredRows = []) : s.filterAcceptsRow r = true := by
  simp [DiveListSortModel.filterAcceptsRow, h]

theorem invalidateFilter_valid (s : DiveListSortModel) :
    ∀ r ∈ s.invalidateFilter.proxyRows, r < s.invalidateFilter.source.m_dives.length := by
  intro r hr
  simp only [DiveListSortModel.invalidateFilter, List.mem_filter, List.mem_range] at hr
  exact hr.1

theorem foldl_append_singleton {α β : Type} (f : α → β) (xs : List α) (acc : List β) :
    xs.foldl (fun acc d => acc ++ [f d]) acc = acc ++ xs.map f := by
  induction xs generalizing acc with
  | nil => simp
  | cons x xs ih => simp [ih]

theorem addDive_m_dives (m : DiveListModel) (l : List dive) :
    (m.addDive l).m_dives = m.m_dives ++ l.map DiveObjectHelper.mk := by
  cases l with
  | nil => simp [DiveListModel.addDive]
  | cons d l =>
    simp only [DiveListModel.addDive, List.isEmpty_cons, Bool.false_eq_true, if_false]
    exact foldl_append_singleton DiveObjectHelper.mk (d :: l) m.m_dives

theorem addAllDives_m_dives (m : DiveListModel) (t : List dive) :
    (m.addAllDives t).m_dives = m.m_dives ++ t.map DiveObjectHelper.mk := by
  have h : t.foldl (fun acc d => acc ++ [d]) [] = t := by
    have := foldl_append_singleton (fun d : dive => d) t []
    simpa using this
  simp only [DiveListModel.addAllDives, h, addDive_m_dives]

/-! ## Part 5. Lemmas on the reverse geo lookup -/

theorem take_set_succ {α : Type} (l : List α) (i : Nat) (e : α) (h : i < l.length) :
    (l.set i e).take (i + 1) = l.take i ++ [e] := by
  induction l generalizing i with
  | nil => simp at h
  | cons a l ih =>
    cases i with
    | zero => simp
    | succ i =>
      simp only [List.length_cons, Nat.add_lt_add_iff_right] at h
      simp [ih i h]

theorem set_getElem?_self {α : Type} (l : List α) (k : Nat) (a b : α) (h : l[k]? = some a) :
    (l.set k b)[k]? = some b := by
  have hlt : k < l.length := by
    rcases Nat.lt_or_ge k l.length with h1 | h1
    · exact h1
    · rw [List.getElem?_eq_none h1] at h
      cases h
  simp [List.getElem?_set, hlt]

/-- With room for every kind that is left, the loop ends without a fault and
has written, from slot `ri` on, exactly the entries of the kinds whose field
is present. -/
theorem fillFromGeonames_ok (T : CoreDecls) (firstData : QVariantMap) (js : List Nat)
    (category : List taxonomy) (ri : Nat) (hroom : ri + js.length ≤ category.length) :
    ∃ category', fillFromGeonames T firstData js category ri
        = .ok (category', ri + (js.filterMap (geocodedEntry T firstData)).length) ∧
      category'.length = category.length ∧
      category'.take (ri + (js.filterMap (geocodedEntry T firstData)).length)
        = category.take ri ++ js.filterMap (geocodedEntry T firstData) := by
  induction js generalizing category ri with
  | nil => exact ⟨category, by simp [fillFromGeonames], rfl, by simp⟩
  | cons j js ih =>
    simp only [List.length_cons] at hroom
    cases hv : firstData (T.taxonomy_api_names j) with
    | none =>
      obtain ⟨c, h1, h2, h3⟩ := ih category ri (by omega)
      have hj : geocodedEntry T firstData j = none := by simp [geocodedEntry, hv]
      refine ⟨c, ?_, h2, ?_⟩
      · simp only [fillFromGeonames, hv, List.filterMap_cons, hj]
        exact h1
      · simp only [List.filterMap_cons, hj]
        exact h3
    | some v =>
      have hlt : ri < category.length := by omega
      obtain ⟨c, h1, h2, h3⟩ := ih
        (category.set ri { category := j, value := T.copy_string v, origin := T.GEOCODED })
        (ri + 1) (by simp; omega)
      have hj : geocodedEntry T firstData j
          = some { category := j, value := T.copy_string v, origin := T.GEOCODED } := by
        simp [geocodedEntry, hv]
      refine ⟨c, ?_, by simpa using h2, ?_⟩
      · simp only [fillFromGeonames, hv, writeSlot, hlt, if_true, List.filterMap_cons, hj,
          List.length_cons]
        rw [h1]
        congr 2
        omega
      · simp only [List.filterMap_cons, hj, List.length_cons]
        have e1 : ri + ((js.filterMap (geocodedEntry T firstData)).length + 1)
            = ri + 1 + (js.filterMap (geocodedEntry T firstData)).length := by omega
        rw [e1, h3, take_set_succ _ _ _ hlt]
        simp

theorem alloc_taxonomy_length (T : CoreDecls) : (alloc_taxonomy T).length = T.NR_CATEGORIES := by
  simp [alloc_taxonomy]

/-- On storage of the allocated size the place-names writes succeed: the
array starts with the geocoded entries and `nr` is their number. -/
theorem writeGeonames_ok (T : CoreDecls) (firstData : QVariantMap) (site : dive_site)
    (hstorage : ∀ c, site.taxonomy.category = some c → c.length = T.NR_CATEGORIES) :
    ∃ category', writeGeonames T firstData site
        = .ok { site with taxonomy :=
            { nr := (geocodedEntries T firstData).length, category := some category' } } ∧
      category'.length = T.NR_CATEGORIES ∧
      category'.take (geocodedEntries T firstData).length = geocodedEntries T firstData := by
  have key : ∀ c : List taxonomy, c.length = T.NR_CATEGORIES →
      ∃ category', fillFromGeonames T firstData
          (List.range' T.COUNTRY (T.NR_CATEGORIES - T.COUNTRY)) c 0
          = .ok (category', (geocodedEntries T firstData).length) ∧
        category'.length = T.NR_CATEGORIES ∧
        category'.take (geocodedEntries T firstData).length = geocodedEntries T firstData := by
    intro c hc
    obtain ⟨c', h1, h2, h3⟩ := fillFromGeonames_ok T firstData
      (List.range' T.COUNTRY (T.NR_CATEGORIES - T.COUNTRY)) c 0
      (by simp only [List.length_range']; omega)
    refine ⟨c', ?_, by rw [h2, hc], ?_⟩
    · simpa [geocodedEntries] using h1
    · simpa [geocodedEntries] using h3
  cases hcat : site.taxonomy.category with
  | none =>
    obtain ⟨c', h1, h2, h3⟩ := key (alloc_taxonomy T) (alloc_taxonomy_length T)
    exact ⟨c', by simp only [writeGeonames, hcat, h1], h2, h3⟩
  | some c =>
    obtain ⟨c', h1, h2, h3⟩ := key c (hstorage c hcat)
    exact ⟨c', by simp only [writeGeonames, hcat, h1], h2, h3⟩

/-- With a free slot at `nr` the ocean write succeeds: slot `nr` holds the OCEAN
entry and `nr` has grown by one. -/
theorem writeOcean_ok (T : CoreDecls) (name : String) (site : dive_site)
    (hroom : site.taxonomy.nr < (storageOf T site).length) :
    writeOcean T name site = .ok { site with taxonomy :=
      { nr := site.taxonomy.nr + 1,
        category := some ((storageOf T site).set site.taxonomy.nr
          { category := T.OCEAN, value := T.copy_string name, origin := T.GEOCODED }) } } := by
  unfold storageOf at hroom
  cases hcat : site.taxonomy.category with
  | none =>
    rw [hcat] at hroom
    simp only [writeOcean, hcat, writeSlot, hroom, if_true, storageOf]
  | some c =>
    rw [hcat] at hroom
    simp only [writeOcean, hcat, writeSlot, hroom, if_true, storageOf]

theorem storageOf_length (T : CoreDecls) (site : dive_site)
    (hstorage : ∀ c, site.taxonomy.category = some c → c.length = T.NR_CATEGORIES) :
    (storageOf T site).length = T.NR_CATEGORIES := by
  unfold storageOf
  cases hc : site.taxonomy.category with
  | none => exact alloc_taxonomy_length T
  | some c => exact hstorage c hc

theorem entries_storage (site : dive_site) (i : Nat) (e : taxonomy)
    (he : site.taxonomy.entries[i]? = some e) :
    ∃ c, site.taxonomy.category = some c ∧ (c.take site.taxonomy.nr)[i]? = some e := by
  unfold taxonomy_data.entries at he
  cases hc : site.taxonomy.category with
  | none => rw [hc] at he; simp at he
  | some c => rw [hc] at he; exact ⟨c, rfl, by simpa using he⟩

theorem throughPointer_ok (w : World) (k : Nat) (site site' : dive_site)
    (f : dive_site → Except Fault dive_site)
    (hsite : w.dive_sites[k]? = some site) (hf : f site = .ok site') :
    throughPointer w (some k) f = { w with dive_sites := w.dive_sites.set k site' } := by
  simp only [throughPointer, hsite, hf]

theorem throughPointer_frame (w : World) (ds : Option Nat)
    (f : dive_site → Except Fault dive_site) :
    (throughPointer w ds f).geo_lookup_data = w.geo_lookup_data ∧
    (throughPointer w ds f).requests = w.requests := by
  unfold throughPointer
  split
  · exact ⟨rfl, rfl⟩
  · split
    · exact ⟨rfl, rfl⟩
    · split <;> exact ⟨rfl, rfl⟩

theorem geonamesStep_frame (T : CoreDecls) (w : World) (ds : Option Nat) (info : GeoLookupInfo)
    (reply : NetworkReply) :
    (geonamesStep T w ds info reply).1.geo_lookup_data = w.geo_lookup_data ∧
    (geonamesStep T w ds info reply).1.requests = w.requests ++ [Request.geonames info] := by
  unfold geonamesStep
  split
  · split
    · exact ⟨rfl, rfl⟩
    · split
      · exact ⟨rfl, rfl⟩
      · split
        · exact ⟨rfl, rfl⟩
        · split
          · exact throughPointer_frame _ _ _
          · exact ⟨rfl, rfl⟩
  · exact ⟨rfl, rfl⟩

theorem oceanStep_frame (T : CoreDecls) (w : World) (ds : Option Nat) (info : GeoLookupInfo)
    (reply : NetworkReply) :
    (oceanStep T w ds info reply).geo_lookup_data = w.geo_lookup_data ∧
    (oceanStep T w ds info reply).requests = w.requests ++ [Request.geonamesOcean info] := by
  unfold oceanStep
  split
  · split
    · exact ⟨rfl, rfl⟩
    · split
      · exact ⟨rfl, rfl⟩
      · split
        · exact ⟨rfl, rfl⟩
        · split
          · exact throughPointer_frame _ _ _
          · exact ⟨rfl, rfl⟩
  · exact ⟨rfl, rfl⟩

theorem geonamesEntries_append (a b : List Request) :
    geonamesEntries (a ++ b) = geonamesEntries a ++ geonamesEntries b := by
  induction a with
  | nil => rfl
  | cons r a ih =>
    cases r with
    | geonames info => simp [geonamesEntries, ih]
    | geonamesOcean info => simp [geonamesEntries, ih]

/-- One iteration never touches the queue and sends exactly one place-names
request, for its own entry. -/
theorem run_entry_frame (T : CoreDecls) (w : World) (info : GeoLookupInfo)
    (placeReply oceanReply : NetworkReply) :
    (ReverseGeoLookupThread.run_entry T w info placeReply oceanReply).geo_lookup_data
      = w.geo_lookup_data ∧
    ∃ new, (ReverseGeoLookupThread.run_entry T w info placeReply oceanReply).requests
        = w.requests ++ new ∧ geonamesEntries new = [info] := by
  have hg := geonamesStep_frame T w (get_dive_site_by_uuid w.dive_sites info.uuid) info placeReply
  unfold ReverseGeoLookupThread.run_entry
  simp only []
  generalize geonamesStep T w (get_dive_site_by_uuid w.dive_sites info.uuid) info placeReply = step at hg
  obtain ⟨w1, flow⟩ := step
  simp only at hg ⊢
  split
  · exact ⟨hg.1, [Request.geonames info], hg.2, rfl⟩
  · cases flow with
    | clear_reply => exact ⟨hg.1, [Request.geonames info], hg.2, rfl⟩
    | next =>
      have ho := oceanStep_frame T w1 (get_dive_site_by_uuid w.dive_sites info.uuid) info oceanReply
      refine ⟨by rw [ho.1, hg.1], [Request.geonames info, Request.geonamesOcean info], ?_, rfl⟩
      simp only []
      rw [ho.2, hg.2]
      simp

/-- The loop never touches the queue; its place-names requests are those of the
first `n` entries in queue order, all of them unless a fault ended the run. -/
theorem runLoop_frame (T : CoreDecls) (net : Nat → NetworkReply × NetworkReply)
    (queue : List GeoLookupInfo) (i : Nat) (w : World) :
    (runLoop T net i queue w).geo_lookup_data = w.geo_lookup_data ∧
    ∃ new n, (runLoop T net i queue w).requests = w.requests ++ new ∧
      n ≤ queue.length ∧ geonamesEntries new = queue.take n ∧
      ((runLoop T net i queue w).fault = none → w.fault = none → n = queue.length) := by
  induction queue generalizing i w with
  | nil => exact ⟨rfl, [], 0, by simp [runLoop], le_refl _, rfl, fun _ _ => rfl⟩
  | cons info rest ih =>
    obtain ⟨hq, new1, hr, hg⟩ := run_entry_frame T w info (net i).1 (net i).2
    simp only [runLoop]
    split
    · rename_i hfault
      refine ⟨hq, new1, 1, hr, by simp, by simpa using hg, fun h _ => ?_⟩
      rw [h] at hfault
      cases hfault
    · obtain ⟨hq2, new2, n, hr2, hn, hg2, hfin⟩ := ih (i + 1)
        (ReverseGeoLookupThread.run_entry T w info (net i).1 (net i).2)
      rename_i hfault
      refine ⟨by rw [hq2, hq], new1 ++ new2, n + 1, ?_, by simp [hn], ?_, fun h _ => ?_⟩
      · rw [hr2, hr, List.append_assoc]
      · rw [geonamesEntries_append, hg, hg2]
        simp
      · have hnone : (ReverseGeoLookupThread.run_entry T w info (net i).1 (net i).2).fault = none := by
          cases hf : (ReverseGeoLookupThread.run_entry T w info (net i).1 (net i).2).fault with
          | none => rfl
          | some f => rw [hf] at hfault; exact absurd rfl hfault
        simp [hfin h hnone]

/-- The same for `run` as a whole. -/
theorem run_frame (T : CoreDecls) (net : Nat → NetworkReply × NetworkReply) (w : World) :
    (ReverseGeoLookupThread.run T w net).geo_lookup_data = w.geo_lookup_data ∧
    ∃ new n, (ReverseGeoLookupThread.run T w net).requests = w.requests ++ new ∧
      n ≤ w.geo_lookup_data.length ∧ geonamesEntries new = w.geo_lookup_data.take n ∧
      ((ReverseGeoLookupThread.run T w net).fault = none → n = w.geo_lookup_data.length) := by
  unfold ReverseGeoLookupThread.run
  split
  · rename_i hf
    refine ⟨rfl, [], 0, by simp, by simp, rfl, fun h => ?_⟩
    rw [h] at hf
    cases hf
  · rename_i hf
    have halive : w.fault = none := by
      cases h : w.fault with
      | none => rfl
      | some f => rw [h] at hf; exact absurd rfl hf
    split
    · rename_i he
      have : w.geo_lookup_data = [] := by simpa using he
      exact ⟨rfl, [], 0, by simp, by simp, by simp [this, geonamesEntries], fun _ => by simp [this]⟩
    · obtain ⟨h1, new, n, h2, h3, h4, h5⟩ := runLoop_frame T net w.geo_lookup_data 0 w
      exact ⟨h1, new, n, h2, h3, h4, fun h => h5 h halive⟩

/-- On a queue of one entry `run` is one iteration of its loop. -/
theorem run_single_entry (T : CoreDecls) (w : World) (info : GeoLookupInfo)
    (net : Nat → NetworkReply × NetworkReply)
    (halive : w.fault = none) (hqueue : w.geo_lookup_data = [info]) :
    ReverseGeoLookupThread.run T w net
      = ReverseGeoLookupThread.run_entry T w info (net 0).1 (net 0).2 := by
  simp only [ReverseGeoLookupThread.run, halive, hqueue, runLoop, Option.isSome_none,
    Bool.false_eq_true, if_false, List.isEmpty_cons, ite_self]

theorem enqueueAll_frame (w : World) (adds : List GeoLookupInfo) :
    (enqueueAll w adds).geo_lookup_data = w.geo_lookup_data ++ adds ∧
    (enqueueAll w adds).requests = w.requests ∧
    (enqueueAll w adds).dive_sites = w.dive_sites ∧
    (enqueueAll w adds).fault = w.fault := by
  induction adds generalizing w with
  | nil => simp [enqueueAll]
  | cons a adds ih =>
    obtain ⟨h1, h2, h3, h4⟩ := ih (add_geo_information_for_lookup w a.lat a.lon a.uuid)
    simp only [enqueueAll, List.foldl_cons] at h1 h2 h3 h4 ⊢
    refine ⟨?_, ?_, ?_, ?_⟩
    · rw [h1]; simp [add_geo_information_for_lookup]
    · rw [h2]; rfl
    · rw [h3]; rfl
    · rw [h4]; rfl

theorem geocodedEntries_length_le (T : CoreDecls) (firstData : QVariantMap) :
    (geocodedEntries T firstData).length ≤ T.NR_CATEGORIES - T.COUNTRY := by
  unfold geocodedEntries
  have := List.length_filterMap_le (geocodedEntry T firstData)
    (List.range' T.COUNTRY (T.NR_CATEGORIES - T.COUNTRY))
  simpa using this

theorem geocodedEntries_kinds_eq (T : CoreDecls) (firstData : QVariantMap) (js : List Nat) :
    (js.filterMap (geocodedEntry T firstData)).map (fun e => e.category)
      = js.filter (fun j => (firstData (T.taxonomy_api_names j)).isSome) := by
  induction js with
  | nil => rfl
  | cons j js ih =>
    cases hv : firstData (T.taxonomy_api_names j) with
    | none => simp [List.filterMap_cons, geocodedEntry, hv, List.filter_cons, ih]
    | some v =>
      simp only [List.filterMap_cons, geocodedEntry, hv, Option.map_some', List.map_cons,
        List.filter_cons, Option.isSome_some, if_true]
      rw [← ih]

theorem geocodedEntries_kinds (T : CoreDecls) (firstData : QVariantMap) :
    (geocodedEntries T firstData).map (fun e => e.category)
      = (List.range' T.COUNTRY (T.NR_CATEGORIES - T.COUNTRY)).filter
          (fun j => (firstData (T.taxonomy_api_names j)).isSome) :=
  geocodedEntries_kinds_eq T firstData _

/-- The kinds of the geocoded entries are strictly ascending. -/
theorem geocodedEntries_ascending (T : CoreDecls) (firstData : QVariantMap) :
    ((geocodedEntries T firstData).map (fun e => e.category)).Pairwise (· < ·) := by
  rw [geocodedEntries_kinds]
  exact List.Pairwise.filter _ (List.pairwise_lt_range' _ _)

/-- No kind occurs twice among the geocoded entries followed by the ocean
entry. -/
theorem full_pass_kinds_nodup (T : CoreDecls) (firstData : QVariantMap) (name : Option String) :
    ((geocodedEntries T firstData ++ oceanEntry T name).map (fun e => e.category)).Nodup := by
  have hasc := geocodedEntries_ascending T firstData
  have hnd : ((geocodedEntries T firstData).map (fun e => e.category)).Nodup :=
    hasc.imp (fun h => Nat.ne_of_lt h)
  cases name with
  | none => simpa [oceanEntry] using hnd
  | some n =>
    simp only [oceanEntry, List.map_append, List.map_cons, List.map_nil]
    rw [List.nodup_append]
    refine ⟨hnd, by simp, ?_⟩
    intro a ha hb
    rw [geocodedEntries_kinds] at ha
    have h1 := (List.mem_filter.mp ha).1
    rw [List.mem_range'_1] at h1
    have h2 : a = T.OCEAN := by simpa using hb
    have := T.ocean_lt_country
    omega

theorem geonamesStep_success (T : CoreDecls) (w : World) (ds : Option Nat) (info : GeoLookupInfo)
    (reply : NetworkReply) (firstData : QVariantMap) (more : List QVariantMap)
    (h : reply.succeeded) (hres : reply.geonames = firstData :: more) :
    geonamesStep T w ds info reply
      = (throughPointer { w with requests := w.requests ++ [Request.geonames info] } ds
          (writeGeonames T firstData), Flow.next) := by
  obtain ⟨h1, h2, h3, h4, h5⟩ := h
  have hs : ¬ (reply.httpStatus < 200 ∨ reply.httpStatus ≥ 300) := by omega
  simp only [geonamesStep, h1, h2, hs, h5, hres, if_true, if_false, Nat.lt_irrefl,
    gt_iff_lt, Bool.false_eq_true]

theorem geonamesStep_no_results (T : CoreDecls) (w : World) (ds : Option Nat)
    (info : GeoLookupInfo) (reply : NetworkReply)
    (h : ¬ reply.succeeded ∨ reply.geonames = []) :
    (geonamesStep T w ds info reply).1
      = { w with requests := w.requests ++ [Request.geonames info] } := by
  by_cases h1 : reply.timerActive = true
  · by_cases h2 : reply.error > 0
    · simp only [geonamesStep, h1, h2, if_true]
    · by_cases h3 : (reply.httpStatus < 200 ∨ reply.httpStatus ≥ 300)
      · simp only [geonamesStep, h1, h2, h3, if_true, if_false, Bool.false_eq_true]
      · by_cases h4 : reply.parseError = true
        · simp only [geonamesStep, h1, h2, h3, h4, if_true, if_false, Bool.false_eq_true]
        · cases hg : reply.geonames with
          | nil => simp only [geonamesStep, h1, h2, h3, h4, hg, if_true, if_false, Bool.false_eq_true]
          | cons fd rest =>
            exfalso
            rcases h with h | h
            · apply h
              refine ⟨h1, by omega, by omega, by omega, ?_⟩
              cases hp : reply.parseError with
              | false => rfl
              | true => exact absurd hp h4
            · rw [h] at hg
              cases hg
  · simp only [geonamesStep, h1, if_false, Bool.false_eq_true]

theorem oceanStep_named (T : CoreDecls) (w : World) (ds : Option Nat) (info : GeoLookupInfo)
    (reply : NetworkReply) (name : String)
    (h : reply.succeeded) (hname : reply.ocean "name" = some name) :
    oceanStep T w ds info reply
      = throughPointer { w with requests := w.requests ++ [Request.geonamesOcean info] } ds
          (writeOcean T name) := by
  obtain ⟨h1, h2, h3, h4, h5⟩ := h
  have hs : ¬ (reply.httpStatus < 200 ∨ reply.httpStatus ≥ 300) := by omega
  simp only [oceanStep, h1, h2, hs, h5, hname, if_true, if_false, Nat.lt_irrefl,
    gt_iff_lt, Bool.false_eq_true]

theorem oceanStep_unnamed (T : CoreDecls) (w : World) (ds : Option Nat) (info : GeoLookupInfo)
    (reply : NetworkReply) (h : ¬ reply.succeeded ∨ reply.ocean "name" = none) :
    oceanStep T w ds info reply
      = { w with requests := w.requests ++ [Request.geonamesOcean info] } := by
  by_cases h1 : reply.timerActive = true
  · by_cases h2 : reply.error > 0
    · simp only [oceanStep, h1, h2, if_true]
    · by_cases h3 : (reply.httpStatus < 200 ∨ reply.httpStatus ≥ 300)
      · simp only [oceanStep, h1, h2, h3, if_true, if_false, Bool.false_eq_true]
      · by_cases h4 : reply.parseError = true
        · simp only [oceanStep, h1, h2, h3, h4, if_true, if_false, Bool.false_eq_true]
        · cases hn : reply.ocean "name" with
          | none => simp only [oceanStep, h1, h2, h3, h4, hn, if_true, if_false, Bool.false_eq_true]
          | some nm =>
            exfalso
            rcases h with h | h
            · apply h
              refine ⟨h1, by omega, by omega, by omega, ?_⟩
              cases hp : reply.parseError with
              | false => rfl
              | true => exact absurd hp h4
            · rw [h] at hn
              cases hn
  · simp only [oceanStep, h1, if_false, Bool.false_eq_true]

/-! ## Part 6. Main statements -/

/-- C1. After `DiveListSortModel::setFilter(text)`, for every source
collection, every filter text, both settings of the notes-inclusion and
case-sensitivity preferences and every row `i` of the source collection:
`filterAcceptsRow(i)` is true if and only if the match text of the row
(`fullText` when notes are included, `fullTextNoNotes` otherwise) contains
`text` as a substring under the configured case sensitivity. `setFilter`
returns normally. `hvalid` is the invariant of the proxy base class (its row
mapping points at rows of the source), `hcount` says the row count is a C++
`int`. -/
theorem setFilter_filterAcceptsRow (prefs : qPrefGeneral) (foldCase : Char → Char)
    (s : DiveListSortModel) (dive_trip_list : List dive_trip) (text : QString)
    (hvalid : ∀ r ∈ s.proxyRows, r < s.source.m_dives.length)
    (hcount : s.source.m_dives.length < 2 ^ 31) :
    ∃ s' trips', DiveListSortModel.setFilter prefs foldCase s dive_trip_list text = .ok (s', trips') ∧
      s'.filterString = text ∧ s'.source = s.source ∧
      ∀ (i : Nat) (d : DiveObjectHelper), s.source.m_dives[i]? = some d →
        (s'.filterAcceptsRow (i : Int) = true ↔
          ∃ pre post, normalise foldCase (configuredCase prefs) (matchText prefs d)
            = pre ++ normalise foldCase (configuredCase prefs) text ++ post) := by
  by_cases hempty : text = []
  · subst hempty
    let s1 : DiveListSortModel := { s with filterString := [], filteredRows := [] }
    obtain ⟨t2, ht2, _, _⟩ := updateDivesShownInTrips_ok s1.invalidateFilter dive_trip_list
      (invalidateFilter_valid s1)
    refine ⟨s1.invalidateFilter, t2, ?_, rfl, rfl, fun i d _ => ?_⟩
    · simp only [DiveListSortModel.setFilter, DiveListSortModel.updateFilterState,
        List.isEmpty_nil, if_true]
      rw [ht2]
    · have hacc : s1.invalidateFilter.filterAcceptsRow (i : Int) = true :=
        filterAcceptsRow_empty _ _ rfl
      simp only [hacc, true_iff]
      refine ⟨[], normalise foldCase (configuredCase prefs) (matchText prefs d), ?_⟩
      cases configuredCase prefs <;> simp [normalise]
  · let rows : List Bool := s.source.m_dives.map (fun d =>
      QString_contains foldCase (matchText prefs d) text (configuredCase prefs))
    let s1 : DiveListSortModel := { s with filterString := text, filteredRows := rows }
    obtain ⟨t1, ht1, _, _⟩ := updateDivesShownInTrips_ok s1 dive_trip_list hvalid
    obtain ⟨t2, ht2, _, _⟩ := updateDivesShownInTrips_ok s1.invalidateFilter t1
      (invalidateFilter_valid s1)
    have hne : (text.isEmpty) = false := by
      cases text with
      | nil => exact absurd rfl hempty
      | cons _ _ => rfl
    refine ⟨s1.invalidateFilter, t2, ?_, rfl, rfl, fun i d hd => ?_⟩
    · simp only [DiveListSortModel.setFilter, DiveListSortModel.updateFilterState, hne,
        Bool.false_eq_true, if_false]
      have : ({ s with filterString := text, filteredRows := s.source.m_dives.map (fun d =>
          QString_contains foldCase
            (if prefs.filterFullTextNotes = true then d.fullText else d.fullTextNoNotes) text
            (if prefs.filterCaseSensitive = true then CaseSensitivity.CaseSensitive
              else CaseSensitivity.CaseInsensitive)) } : DiveListSortModel) = s1 := rfl
      rw [this, ht1]
      simp only []
      rw [ht2]
    · have hlt : i < s.source.m_dives.length := by
        rcases Nat.lt_or_ge i s.source.m_dives.length with h1 | h1
        · exact h1
        · rw [List.getElem?_eq_none h1] at hd
          cases hd
      have hlen : i < s1.invalidateFilter.filteredRows.length := by
        show i < (s.source.m_dives.map _).length
        simpa using hlt
      rw [filterAcceptsRow_in_range _ i hlen (by omega)]
      have hrow : s1.invalidateFilter.filteredRows.getD i true =
          QString_contains foldCase (matchText prefs d) text (configuredCase prefs) := by
        show (s.source.m_dives.map _).getD i true = _
        simp [List.getD, hd]
      rw [hrow, QString_contains, findFrom_iff]

/-- An instance of the theorem above: two dives, both shown, filter "sea". -/
theorem setFilter_filterAcceptsRow_witness :
    (∀ r ∈ sampleSortModel.proxyRows, r < sampleSortModel.source.m_dives.length) ∧
    sampleSortModel.source.m_dives.length < 2 ^ 31 ∧
    ∃ s' trips', DiveListSortModel.setFilter samplePrefs Char.toLower sampleSortModel
        sampleTrips ['s', 'e', 'a'] = .ok (s', trips') ∧
      s'.filterString = ['s', 'e', 'a'] ∧ s'.source = sampleSortModel.source ∧
      ∀ (i : Nat) (d : DiveObjectHelper), sampleSortModel.source.m_dives[i]? = some d →
        (s'.filterAcceptsRow (i : Int) = true ↔
          ∃ pre post, normalise Char.toLower (configuredCase samplePrefs) (matchText samplePrefs d)
            = pre ++ normalise Char.toLower (configuredCase samplePrefs) ['s', 'e', 'a'] ++ post) :=
  ⟨by decide, by decide,
    setFilter_filterAcceptsRow samplePrefs Char.toLower sampleSortModel sampleTrips
      ['s', 'e', 'a'] (by decide) (by decide)⟩

/-- C2. For every entity, whatever its prior taxonomy, and every pass of the
loop of `ReverseGeoLookupThread::run` in which both requests succeed and the
place-names response has at least one result: the pass ends without a fault
and afterwards the taxonomy of the entity holds exactly one GEOCODED entry for
each kind, from COUNTRY up to the last kind, whose field is present in the
first result (ascending kinds, none repeated), followed by exactly one
GEOCODED OCEAN entry if the ocean response names an ocean; `taxonomy.nr` is
the number of those entries. `hds` and `hsite` say the uuid of the queue entry
resolves to the entity, `hstorage` that its array, if allocated, has the size
`alloc_taxonomy` gives. A pass is one iteration of the loop; on a queue of one
entry it is the whole of `run` (`run_single_entry`). -/
theorem run_entry_full_pass (T : CoreDecls) (w : World) (info : GeoLookupInfo)
    (placeReply oceanReply : NetworkReply) (k : Nat) (site : dive_site)
    (firstData : QVariantMap) (more : List QVariantMap)
    (halive : w.fault = none)
    (hds : get_dive_site_by_uuid w.dive_sites info.uuid = some k)
    (hsite : w.dive_sites[k]? = some site)
    (hstorage : ∀ c, site.taxonomy.category = some c → c.length = T.NR_CATEGORIES)
    (hplace : placeReply.succeeded) (hres : placeReply.geonames = firstData :: more)
    (hocean : oceanReply.succeeded) :
    (ReverseGeoLookupThread.run_entry T w info placeReply oceanReply).fault = none ∧
    ∃ site', (ReverseGeoLookupThread.run_entry T w info placeReply oceanReply).dive_sites[k]?
        = some site' ∧
      site'.taxonomy.entries
        = geocodedEntries T firstData ++ oceanEntry T (oceanReply.ocean "name") ∧
      site'.taxonomy.nr
        = (geocodedEntries T firstData ++ oceanEntry T (oceanReply.ocean "name")).length ∧
      ((geocodedEntries T firstData).map (fun e => e.category)).Pairwise (· < ·) ∧
      (site'.taxonomy.entries.map (fun e => e.category)).Nodup := by
  obtain ⟨c1, hw, hlen, htake⟩ := writeGeonames_ok T firstData site hstorage
  have hle := geocodedEntries_length_le T firstData
  have hC := T.ocean_lt_country
  have hN := T.country_le_nr
  have hstep : geonamesStep T w (some k) info placeReply
      = (World.mk (w.dive_sites.set k (dive_site.mk site.uuid site.latitude site.longitude
            (taxonomy_data.mk (geocodedEntries T firstData).length (some c1))))
          w.geo_lookup_data (w.requests ++ [Request.geonames info]) w.fault, Flow.next) := by
    rw [geonamesStep_success T w (some k) info placeReply firstData more hplace hres,
      throughPointer_ok (World.mk w.dive_sites w.geo_lookup_data
        (w.requests ++ [Request.geonames info]) w.fault) k site _
        (writeGeonames T firstData) hsite hw]
  have hrun : ReverseGeoLookupThread.run_entry T w info placeReply oceanReply
      = oceanStep T (World.mk (w.dive_sites.set k (dive_site.mk site.uuid site.latitude
            site.longitude (taxonomy_data.mk (geocodedEntries T firstData).length (some c1))))
          w.geo_lookup_data (w.requests ++ [Request.geonames info]) w.fault)
          (some k) info oceanReply := by
    simp only [ReverseGeoLookupThread.run_entry, hds, hstep, halive, Option.isSome_none,
      Bool.false_eq_true, if_false]
  have hs1 := set_getElem?_self w.dive_sites k site
    (dive_site.mk site.uuid site.latitude site.longitude
      (taxonomy_data.mk (geocodedEntries T firstData).length (some c1))) hsite
  rw [hrun]
  cases hname : oceanReply.ocean "name" with
  | none =>
    rw [oceanStep_unnamed T _ (some k) info oceanReply (Or.inr hname)]
    refine ⟨halive, _, hs1, ?_, ?_,
      geocodedEntries_ascending T firstData, ?_⟩
    · simp [taxonomy_data.entries, oceanEntry, htake]
    · simp [oceanEntry]
    · have := full_pass_kinds_nodup T firstData none
      simpa [taxonomy_data.entries, oceanEntry, htake] using this
  | some name =>
    have hroom : (geocodedEntries T firstData).length < c1.length := by omega
    have hw2 := writeOcean_ok T name
      (dive_site.mk site.uuid site.latitude site.longitude
        (taxonomy_data.mk (geocodedEntries T firstData).length (some c1)))
      (by simpa [storageOf] using hroom)
    rw [oceanStep_named T _ (some k) info oceanReply name hocean hname,
      throughPointer_ok (World.mk (w.dive_sites.set k (dive_site.mk site.uuid site.latitude
            site.longitude (taxonomy_data.mk (geocodedEntries T firstData).length (some c1))))
          w.geo_lookup_data (w.requests ++ [Request.geonames info]
            ++ [Request.geonamesOcean info]) w.fault)
        k _ _ (writeOcean T name) hs1 hw2]
    have hentries : (List.take ((geocodedEntries T firstData).length + 1)
        (c1.set (geocodedEntries T firstData).length
          { category := T.OCEAN, value := T.copy_string name, origin := T.GEOCODED }))
        = geocodedEntries T firstData
          ++ [{ category := T.OCEAN, value := T.copy_string name, origin := T.GEOCODED }] := by
      rw [take_set_succ _ _ _ hroom, htake]
    refine ⟨halive, _, set_getElem?_self _ _ _ _ hs1, ?_, ?_,
      geocodedEntries_ascending T firstData, ?_⟩
    · simpa [taxonomy_data.entries, oceanEntry, storageOf] using hentries
    · simp [oceanEntry]
    · have := full_pass_kinds_nodup T firstData (some name)
      simp only [taxonomy_data.entries, storageOf, Option.getD_some]
      rw [hentries]
      simpa [oceanEntry] using this

/-- An instance of the theorem above, the scenario of the specification: the
place-names response names Italy, the ocean response the Adriatic Sea; the
entity held a user-entered country before. -/
theorem run_entry_full_pass_witness :
    userSite.taxonomy.entries = [{ category := 2, value := some "Atlantis", origin := 2 }] ∧
    (ReverseGeoLookupThread.run_entry sampleDecls (worldOf userSite) freshInfo italyReply
        (oceanReply "Adriatic Sea")).fault = none ∧
    ∃ site', (ReverseGeoLookupThread.run_entry sampleDecls (worldOf userSite) freshInfo
          italyReply (oceanReply "Adriatic Sea")).dive_sites[0]? = some site' ∧
      site'.taxonomy.entries
        = [{ category := 2, value := some "Italy", origin := 0 },
           { category := 1, value := some "Adriatic Sea", origin := 0 }] ∧
      site'.taxonomy.nr = 2 := by
  obtain ⟨h1, site', h2, h3, h4, _, _⟩ :=
    run_entry_full_pass sampleDecls (worldOf userSite) freshInfo italyReply
      (oceanReply "Adriatic Sea") 0 userSite
      (fun key => if key = "countryName" then some "Italy" else none) []
      (by decide) (by decide) (by decide) (fun c h => by cases h; rfl)
      ⟨rfl, rfl, by decide, by decide, rfl⟩ rfl ⟨rfl, rfl, by decide, by decide, rfl⟩
  have hlist : geocodedEntries sampleDecls
        (fun key => if key = "countryName" then some "Italy" else none)
      ++ oceanEntry sampleDecls ((oceanReply "Adriatic Sea").ocean "name")
      = [{ category := 2, value := some "Italy", origin := 0 },
         { category := 1, value := some "Adriatic Sea", origin := 0 }] := by decide
  rw [hlist] at h3 h4
  exact ⟨by decide, h1, site', h2, h3, h4⟩

/-- Counterexample to C3 as stated: the entity holds the user-entered
country "Atlantis" (origin 2, GEOCODED is 0); the place-names response names
Italy; after `run` the taxonomy holds the GEOCODED country "Italy" and the
user entry is gone. -/
theorem geocoded_write_replaces_user_entry :
    userSite.taxonomy.entries = [{ category := 2, value := some "Atlantis", origin := 2 }] ∧
    sampleDecls.GEOCODED ≠ 2 ∧
    (ReverseGeoLookupThread.run sampleDecls (worldOf userSite)
        (fun _ => (italyReply, timedOut))).dive_sites.map (fun s => s.taxonomy.entries)
      = [[{ category := 2, value := some "Italy", origin := 0 }]] := by
  decide

/-- C3, amended. For every entity and every entry its taxonomy holds (a
non-GEOCODED one in particular): if the place-names request fails or its
response has no result, then, whatever the ocean response, the pass of
`ReverseGeoLookupThread::run` for that entity ends without a fault and the
taxonomy still holds that entry at the same slot, value and origin unchanged
(an OCEAN entry is appended after it). `hroom` says the taxonomy is not full. -/
theorem run_entry_keeps_entries_without_results (T : CoreDecls) (w : World)
    (info : GeoLookupInfo) (placeReply oceanReply : NetworkReply) (k : Nat) (site : dive_site)
    (halive : w.fault = none)
    (hds : get_dive_site_by_uuid w.dive_sites info.uuid = some k)
    (hsite : w.dive_sites[k]? = some site)
    (hstorage : ∀ c, site.taxonomy.category = some c → c.length = T.NR_CATEGORIES)
    (hroom : site.taxonomy.nr < T.NR_CATEGORIES)
    (hno : ¬ placeReply.succeeded ∨ placeReply.geonames = [])
    (i : Nat) (e : taxonomy) (he : site.taxonomy.entries[i]? = some e) :
    (ReverseGeoLookupThread.run_entry T w info placeReply oceanReply).fault = none ∧
    ∃ site', (ReverseGeoLookupThread.run_entry T w info placeReply oceanReply).dive_sites[k]?
        = some site' ∧ site'.taxonomy.entries[i]? = some e := by
  have hg := geonamesStep_no_results T w (some k) info placeReply hno
  cases hgs : geonamesStep T w (some k) info placeReply with
  | mk w1 flow =>
    rw [hgs] at hg
    have hw1 : w1 = World.mk w.dive_sites w.geo_lookup_data
        (w.requests ++ [Request.geonames info]) w.fault := hg
    subst hw1
    cases flow with
    | clear_reply =>
      have hrun : ReverseGeoLookupThread.run_entry T w info placeReply oceanReply
          = World.mk w.dive_sites w.geo_lookup_data
              (w.requests ++ [Request.geonames info]) w.fault := by
        simp only [ReverseGeoLookupThread.run_entry, hds, hgs, halive, Option.isSome_none,
          Bool.false_eq_true, if_false]
      rw [hrun]
      exact ⟨halive, site, hsite, he⟩
    | next =>
      have hrun : ReverseGeoLookupThread.run_entry T w info placeReply oceanReply
          = oceanStep T (World.mk w.dive_sites w.geo_lookup_data
              (w.requests ++ [Request.geonames info]) w.fault) (some k) info oceanReply := by
        simp only [ReverseGeoLookupThread.run_entry, hds, hgs, halive, Option.isSome_none,
          Bool.false_eq_true, if_false]
      rw [hrun]
      by_cases hnamed : oceanReply.succeeded ∧ ∃ name, oceanReply.ocean "name" = some name
      · obtain ⟨hsucc, name, hname⟩ := hnamed
        obtain ⟨c, hc, hce⟩ := entries_storage site i e he
        have hlen : c.length = T.NR_CATEGORIES := hstorage c hc
        have hst : storageOf T site = c := by simp [storageOf, hc]
        have hw2 := writeOcean_ok T name site (by rw [hst, hlen]; exact hroom)
        rw [oceanStep_named T _ (some k) info oceanReply name hsucc hname,
          throughPointer_ok (World.mk w.dive_sites w.geo_lookup_data
            (w.requests ++ [Request.geonames info] ++ [Request.geonamesOcean info]) w.fault)
            k site _ (writeOcean T name) hsite hw2]
        refine ⟨halive, _, set_getElem?_self _ _ _ _ hsite, ?_⟩
        simp only [taxonomy_data.entries, Option.getD_some, hst]
        rw [take_set_succ _ _ _ (by rw [hlen]; exact hroom)]
        have hi : i < (c.take site.taxonomy.nr).length := by
          rcases Nat.lt_or_ge i (c.take site.taxonomy.nr).length with h1 | h1
          · exact h1
          · rw [List.getElem?_eq_none h1] at hce
            cases hce
        rw [List.getElem?_append_left hi]
        exact hce
      · have hun : ¬ oceanReply.succeeded ∨ oceanReply.ocean "name" = none := by
          by_cases hs : oceanReply.succeeded
          · right
            cases hn : oceanReply.ocean "name" with
            | none => rfl
            | some nm => exact absurd ⟨hs, nm, hn⟩ hnamed
          · exact Or.inl hs
        rw [oceanStep_unnamed T _ (some k) info oceanReply hun]
        exact ⟨halive, site, hsite, he⟩

/-- An instance of the theorem above: the place-names request times out, the
ocean response names an ocean, the user-entered country stays. -/
theorem run_entry_keeps_entries_without_results_witness :
    userSite.taxonomy.entries[0]? = some { category := 2, value := some "Atlantis", origin := 2 } ∧
    (ReverseGeoLookupThread.run_entry sampleDecls (worldOf userSite) freshInfo timedOut
      (oceanReply "Atlantic Ocean")).fault = none ∧
    ∃ site', (ReverseGeoLookupThread.run_entry sampleDecls (worldOf userSite) freshInfo timedOut
        (oceanReply "Atlantic Ocean")).dive_sites[0]? = some site' ∧
      site'.taxonomy.entries[0]?
        = some { category := 2, value := some "Atlantis", origin := 2 } :=
  ⟨by decide,
    run_entry_keeps_entries_without_results sampleDecls (worldOf userSite) freshInfo timedOut
      (oceanReply "Atlantic Ocean") 0 userSite (by decide) (by decide) (by decide)
      (fun c h => by cases h; rfl) (by decide)
      (Or.inl (fun h => absurd h.1 (by decide))) 0 _ (by decide)⟩

/-- Counterexample to C4 as stated: the place-names request ends with a
transport error and the ocean provider would name the Pacific Ocean; `run`
sends the place-names request only and leaves the entity as it was. -/
theorem transport_error_skips_ocean_request :
    (ReverseGeoLookupThread.run sampleDecls (worldOf freshSite)
        (fun _ => (transportError, oceanReply "Pacific Ocean"))).requests
      = [Request.geonames freshInfo] ∧
    (ReverseGeoLookupThread.run sampleDecls (worldOf freshSite)
        (fun _ => (transportError, oceanReply "Pacific Ocean"))).dive_sites = [freshSite] := by
  decide

/-- C4, amended. When the place-names request of a queued entry times out,
`ReverseGeoLookupThread::run` still sends the ocean request for the same
entry, and if that request succeeds with a named ocean (the entity resolves
and its taxonomy is not full) an OCEAN entry with origin GEOCODED is written at
slot `nr` and `nr` grows by one. When the place-names request ends with a
transport error, a status outside 200..299 or a body that does not parse,
`run` jumps to `clear_reply`: no ocean request is sent for that entry and
nothing else changes. -/
theorem run_entry_place_names_failure (T : CoreDecls) (w : World) (info : GeoLookupInfo)
    (placeReply oceanReply : NetworkReply) (halive : w.fault = none) :
    (placeReply.timerActive = false →
      (ReverseGeoLookupThread.run_entry T w info placeReply oceanReply).requests
        = w.requests ++ [Request.geonames info, Request.geonamesOcean info] ∧
      ∀ (k : Nat) (site : dive_site) (name : String),
        get_dive_site_by_uuid w.dive_sites info.uuid = some k →
        w.dive_sites[k]? = some site →
        (∀ c, site.taxonomy.category = some c → c.length = T.NR_CATEGORIES) →
        site.taxonomy.nr < T.NR_CATEGORIES →
        oceanReply.succeeded → oceanReply.ocean "name" = some name →
        (ReverseGeoLookupThread.run_entry T w info placeReply oceanReply).fault = none ∧
        ∃ site', (ReverseGeoLookupThread.run_entry T w info placeReply oceanReply).dive_sites[k]?
            = some site' ∧
          site'.taxonomy.nr = site.taxonomy.nr + 1 ∧
          site'.taxonomy.entries[site.taxonomy.nr]?
            = some { category := T.OCEAN, value := T.copy_string name, origin := T.GEOCODED }) ∧
    (placeReply.timerActive = true →
      (placeReply.error > 0 ∨ placeReply.httpStatus < 200 ∨ placeReply.httpStatus ≥ 300 ∨
        placeReply.parseError = true) →
      ReverseGeoLookupThread.run_entry T w info placeReply oceanReply
        = { w with requests := w.requests ++ [Request.geonames info] }) := by
  constructor
  · intro htimeout
    have hgs : geonamesStep T w (get_dive_site_by_uuid w.dive_sites info.uuid) info placeReply
        = (World.mk w.dive_sites w.geo_lookup_data (w.requests ++ [Request.geonames info])
            w.fault, Flow.next) := by
      simp only [geonamesStep, htimeout, Bool.false_eq_true, if_false]
    have hrun : ReverseGeoLookupThread.run_entry T w info placeReply oceanReply
        = oceanStep T (World.mk w.dive_sites w.geo_lookup_data
            (w.requests ++ [Request.geonames info]) w.fault)
            (get_dive_site_by_uuid w.dive_sites info.uuid) info oceanReply := by
      simp only [ReverseGeoLookupThread.run_entry, hgs, halive, Option.isSome_none,
        Bool.false_eq_true, if_false]
    rw [hrun]
    constructor
    · rw [(oceanStep_frame T _ _ info oceanReply).2]
      simp
    · intro k site name hds hsite hstorage hroom hsucc hname
      have hlen := storageOf_length T site hstorage
      have hw2 := writeOcean_ok T name site (by rw [hlen]; exact hroom)
      rw [hds, oceanStep_named T _ (some k) info oceanReply name hsucc hname,
        throughPointer_ok (World.mk w.dive_sites w.geo_lookup_data
          (w.requests ++ [Request.geonames info] ++ [Request.geonamesOcean info]) w.fault)
          k site _ (writeOcean T name) hsite hw2]
      refine ⟨halive, _, set_getElem?_self _ _ _ _ hsite, rfl, ?_⟩
      simp only [taxonomy_data.entries, Option.getD_some]
      rw [take_set_succ _ _ _ (by rw [hlen]; exact hroom)]
      have hl : (List.take site.taxonomy.nr (storageOf T site)).length = site.taxonomy.nr := by
        rw [List.length_take, hlen]
        omega
      rw [List.getElem?_append_right (by rw [hl]), hl]
      simp
  · intro hactive hfail
    have hgs : geonamesStep T w (get_dive_site_by_uuid w.dive_sites info.uuid) info placeReply
        = (World.mk w.dive_sites w.geo_lookup_data (w.requests ++ [Request.geonames info])
            w.fault, Flow.clear_reply) := by
      by_cases h2 : placeReply.error > 0
      · simp only [geonamesStep, hactive, h2, if_true]
      · by_cases h3 : (placeReply.httpStatus < 200 ∨ placeReply.httpStatus ≥ 300)
        · simp only [geonamesStep, hactive, h2, h3, if_true, if_false]
        · have h4 : placeReply.parseError = true := by
            rcases hfail with h | h | h | h
            · exact absurd h h2
            · exact absurd (Or.inl h) h3
            · exact absurd (Or.inr h) h3
            · exact h
          simp only [geonamesStep, hactive, h2, h3, h4, if_true, if_false]
    simp only [ReverseGeoLookupThread.run_entry, hgs, halive, Option.isSome_none,
      Bool.false_eq_true, if_false]

/-- An instance of the theorem above, with the second scenario of the
specification: after a timeout both requests are sent and the taxonomy holds
the one entry OCEAN = "Pacific Ocean"; after a transport error only the first
request is sent. -/
theorem run_entry_place_names_failure_witness :
    (ReverseGeoLookupThread.run_entry sampleDecls (worldOf freshSite) freshInfo timedOut
        (oceanReply "Pacific Ocean")).requests
      = [Request.geonames freshInfo, Request.geonamesOcean freshInfo] ∧
    ((ReverseGeoLookupThread.run_entry sampleDecls (worldOf freshSite) freshInfo timedOut
        (oceanReply "Pacific Ocean")).fault = none ∧
      ∃ site', (ReverseGeoLookupThread.run_entry sampleDecls (worldOf freshSite) freshInfo
            timedOut (oceanReply "Pacific Ocean")).dive_sites[0]? = some site' ∧
        site'.taxonomy.nr = 1 ∧
        site'.taxonomy.entries[0]?
          = some { category := 1, value := some "Pacific Ocean", origin := 0 }) ∧
    ReverseGeoLookupThread.run_entry sampleDecls (worldOf freshSite) freshInfo transportError
        (oceanReply "Pacific Ocean")
      = { worldOf freshSite with requests := [Request.geonames freshInfo] } :=
  ⟨((run_entry_place_names_failure sampleDecls (worldOf freshSite) freshInfo timedOut
      (oceanReply "Pacific Ocean") (by decide)).1 (by decide)).1,
   ((run_entry_place_names_failure sampleDecls (worldOf freshSite) freshInfo timedOut
      (oceanReply "Pacific Ocean") (by decide)).1 (by decide)).2 0 freshSite "Pacific Ocean"
      (by decide) (by decide) (fun c h => by cases h) (by decide)
      ⟨rfl, rfl, by decide, by decide, rfl⟩ (by decide),
   (run_entry_place_names_failure sampleDecls (worldOf freshSite) freshInfo transportError
      (oceanReply "Pacific Ocean") (by decide)).2 (by decide) (Or.inl (by decide))⟩

/-- Counterexample to C5 as stated: on an empty model and a dive table of one
dive, one call of `addAllDives` gives one row, two calls give two rows for
the same dive. -/
theorem addAllDives_twice_duplicates :
    (((DiveListModel.mk []).addAllDives [sampleDive]).addAllDives [sampleDive]).m_dives
        = [⟨sampleDive⟩, ⟨sampleDive⟩] ∧
      ((DiveListModel.mk []).addAllDives [sampleDive]).m_dives = [⟨sampleDive⟩] := by
  decide

/-- C5, amended. `DiveListModel::addAllDives` appends every dive of the
external collection to the model, whether or not the model holds it
already: after one call the rows are the old rows followed by the
collection, after two calls the old rows followed by the collection twice;
two calls leave the same rows as one call only when the collection is
empty. -/
theorem addAllDives_appends_table (m : DiveListModel) (dive_table : List dive) :
    (m.addAllDives dive_table).m_dives = m.m_dives ++ dive_table.map DiveObjectHelper.mk ∧
    ((m.addAllDives dive_table).addAllDives dive_table).m_dives
      = m.m_dives ++ dive_table.map DiveObjectHelper.mk ++ dive_table.map DiveObjectHelper.mk ∧
    (((m.addAllDives dive_table).addAllDives dive_table) = m.addAllDives dive_table
      ↔ dive_table = []) := by
  refine ⟨addAllDives_m_dives m dive_table, ?_, ?_⟩
  · rw [addAllDives_m_dives, addAllDives_m_dives]
  · constructor
    · intro h
      have h1 := congrArg (fun x => x.m_dives.length) h
      simp only [addAllDives_m_dives, List.length_append, List.length_map] at h1
      have : dive_table.length = 0 := by omega
      exact List.length_eq_zero.mp this
    · rintro rfl
      rfl

/-- C6, the code at the failing input: the first queued uuid resolves to no
entity and its place-names response has a result. `run` dereferences the null
pointer (`ds->taxonomy.category`) and ends there: only the first request was
sent and the second queue entry is never processed. -/
theorem run_dereferences_missing_entity :
    get_dive_site_by_uuid [freshSite] vanishedInfo.uuid = none ∧
    (ReverseGeoLookupThread.run sampleDecls
        { dive_sites := [freshSite], geo_lookup_data := [vanishedInfo, freshInfo],
          requests := [], fault := none }
        (fun _ => (italyReply, oceanReply "Adriatic Sea")))
      = { dive_sites := [freshSite], geo_lookup_data := [vanishedInfo, freshInfo],
          requests := [Request.geonames vanishedInfo], fault := some Fault.nullDeref } := by
  decide

/-- C7, the code at the failing input: the taxonomy holds one OCEAN entry
(no kind repeated); the place-names request times out and the ocean response
names an ocean. After `run` the taxonomy holds two OCEAN entries. -/
theorem ocean_append_duplicates_kind :
    (oceanSite.taxonomy.entries.map (fun e => e.category)).Nodup ∧
    (ReverseGeoLookupThread.run sampleDecls (worldOf oceanSite)
        (fun _ => (timedOut, oceanReply "Pacific Ocean"))).dive_sites.map
          (fun s => s.taxonomy.entries)
      = [[{ category := 1, value := some "Pacific Ocean", origin := 0 },
          { category := 1, value := some "Pacific Ocean", origin := 0 }]] := by
  decide

/-- C8. For every trip list and every state of the filtered view, after
`DiveListSortModel::updateDivesShownInTrips` (which returns normally): if the
row count of the view is zero, `showndives` of every trip equals its
`nrdives`; otherwise `showndives` of every trip equals the number of rows of
the view whose dive belongs to that trip. `hvalid` is the invariant of the
proxy base class (its row mapping points at rows of the source). -/
theorem updateDivesShownInTrips_counts (s : DiveListSortModel) (dive_trip_list : List dive_trip)
    (hvalid : ∀ r ∈ s.proxyRows, r < s.source.m_dives.length) :
    ∃ trips', s.updateDivesShownInTrips dive_trip_list = .ok trips' ∧
      trips'.length = dive_trip_list.length ∧
      ∀ (k : Nat) (dt : dive_trip), dive_trip_list[k]? = some dt →
        ∃ dt', trips'[k]? = some dt' ∧ dt'.nrdives = dt.nrdives ∧
          (s.rowCount = 0 → dt'.showndives = dt.nrdives) ∧
          (s.rowCount ≠ 0 → dt'.showndives = (shownInTrip s.source s.proxyRows k : Int)) := by
  obtain ⟨t, h1, h2, h3⟩ := updateDivesShownInTrips_ok s dive_trip_list hvalid
  refine ⟨t, h1, h2, fun k dt hk => ?_⟩
  refine ⟨{ dt with showndives := (if s.rowCount ≠ 0 then 0 else dt.nrdives)
      + (shownInTrip s.source s.proxyRows k : Int) }, by rw [h3 k, hk]; rfl, rfl, ?_, ?_⟩
  · intro h0
    have hrows : s.proxyRows = [] := List.length_eq_zero.mp h0
    show (if s.rowCount ≠ 0 then 0 else dt.nrdives) + _ = _
    simp [h0, hrows, shownInTrip]
  · intro h0
    show (if s.rowCount ≠ 0 then 0 else dt.nrdives) + _ = _
    simp [h0]

/-- An instance of the theorem above: two rows shown, one of them in trip 0. -/
theorem updateDivesShownInTrips_counts_witness :
    (∀ r ∈ sampleSortModel.proxyRows, r < sampleSortModel.source.m_dives.length) ∧
    ∃ trips' dt', sampleSortModel.updateDivesShownInTrips sampleTrips = .ok trips' ∧
      trips'[0]? = some dt' ∧ dt'.showndives = 1 := by
  obtain ⟨t, h1, _, h3⟩ :=
    updateDivesShownInTrips_counts sampleSortModel sampleTrips (by decide)
  obtain ⟨dt', h4, _, _, h6⟩ := h3 0 { nrdives := 1, showndives := 0 } rfl
  refine ⟨by decide, t, dt', h1, h4, ?_⟩
  rw [h6 (by decide)]
  decide

/-- Counterexample to C9 as stated: one entry is queued and `run` is called
twice without a new enqueue. After the first call the queue still holds the
entry, and the second call sends both of its requests again. -/
theorem second_run_repeats_requests :
    (ReverseGeoLookupThread.run sampleDecls
        (add_geo_information_for_lookup
          { dive_sites := [freshSite], geo_lookup_data := [], requests := [], fault := none }
          12345678 45678912 7)
        (fun _ => (timedOut, timedOut))).geo_lookup_data = [freshInfo] ∧
    (ReverseGeoLookupThread.run sampleDecls
        (ReverseGeoLookupThread.run sampleDecls
          (add_geo_information_for_lookup
            { dive_sites := [freshSite], geo_lookup_data := [], requests := [], fault := none }
            12345678 45678912 7)
          (fun _ => (timedOut, timedOut)))
        (fun _ => (timedOut, timedOut))).requests
      = [Request.geonames freshInfo, Request.geonamesOcean freshInfo,
         Request.geonames freshInfo, Request.geonamesOcean freshInfo] := by
  decide

/-- C9, amended. For every sequence of `add_geo_information_for_lookup` calls
followed by `ReverseGeoLookupThread::run`: the entries are queued in call
order; `run` sends the place-names requests of the queue entries in queue
order (all of them unless a fault ends the run) and leaves the queue as it
was; a second `run` without a new enqueue goes through the same queue again,
in the same order. -/
theorem run_fifo_and_queue_kept (T : CoreDecls) (w : World) (adds : List GeoLookupInfo)
    (net net2 : Nat → NetworkReply × NetworkReply) :
    (enqueueAll w adds).geo_lookup_data = w.geo_lookup_data ++ adds ∧
    (ReverseGeoLookupThread.run T (enqueueAll w adds) net).geo_lookup_data
      = w.geo_lookup_data ++ adds ∧
    (∃ new n, (ReverseGeoLookupThread.run T (enqueueAll w adds) net).requests
        = w.requests ++ new ∧
      n ≤ (w.geo_lookup_data ++ adds).length ∧
      geonamesEntries new = (w.geo_lookup_data ++ adds).take n ∧
      ((ReverseGeoLookupThread.run T (enqueueAll w adds) net).fault = none →
        n = (w.geo_lookup_data ++ adds).length)) ∧
    (∃ new2 n2, (ReverseGeoLookupThread.run T
          (ReverseGeoLookupThread.run T (enqueueAll w adds) net) net2).requests
        = (ReverseGeoLookupThread.run T (enqueueAll w adds) net).requests ++ new2 ∧
      n2 ≤ (w.geo_lookup_data ++ adds).length ∧
      geonamesEntries new2 = (w.geo_lookup_data ++ adds).take n2 ∧
      ((ReverseGeoLookupThread.run T
          (ReverseGeoLookupThread.run T (enqueueAll w adds) net) net2).fault = none →
        n2 = (w.geo_lookup_data ++ adds).length)) := by
  obtain ⟨hq, hr, _, _⟩ := enqueueAll_frame w adds
  obtain ⟨h1, new, n, h2, h3, h4, h5⟩ := run_frame T net (enqueueAll w adds)
  obtain ⟨g1, new2, n2, g2, g3, g4, g5⟩ := run_frame T net2
    (ReverseGeoLookupThread.run T (enqueueAll w adds) net)
  rw [hq] at h1 h3 h4 h5
  rw [h1] at g3 g4 g5
  rw [hr] at h2
  exact ⟨hq, h1, ⟨new, n, h2, h3, h4, h5⟩, ⟨new2, n2, g2, g3, g4, g5⟩⟩

/-- C10, the code at the failing input: for every model state and every role,
`DiveListModel::data` at the row equal to the number of dives passes its guard
(`row > count` is false) and indexes `m_dives` out of bounds. At every other
row that is negative or not below the number of dives `data` returns the
empty value, and `DiveListModel::getDiveId` returns -1 at all of them, the
row equal to the number of dives included. -/
theorem DiveListModel_data_row_eq_count (m : DiveListModel) (role : DiveListRoles) :
    m.data (m.m_dives.length : Int) role = .error .outOfBounds ∧
    (∀ row : Int, row < 0 ∨ row > (m.m_dives.length : Int) → m.data row role = .ok .invalid) ∧
    (∀ idx : Int, idx < 0 ∨ idx ≥ (m.m_dives.length : Int) → m.getDiveId idx = .ok (-1)) := by
  refine ⟨?_, fun row hrow => ?_, fun idx hidx => ?_⟩
  · have hg : ¬ (((m.m_dives.length : Nat) : Int) < 0 ∨
        ((m.m_dives.length : Nat) : Int) > (m.m_dives.length : Int)) := by omega
    simp only [DiveListModel.data, hg, if_false, Int.toNat_ofNat]
    rw [List.getElem?_eq_none (Nat.le_refl _)]
  · simp only [DiveListModel.data, hrow, if_true]
  · simp only [DiveListModel.getDiveId, hidx, if_true]

end Subsurface
